import Mathlib

/-!
Shallow embedding of the indicator engine, signal detector and trade
simulation engines of the bybit-signal-bot repository, together with
proofs about them.  Machine floating point is idealised as `ℚ`
(exact arithmetic); the special float values produced by the code
(`inf`, `NaN`) are modelled explicitly at the places they can arise.
-/

namespace SignalBot

/-! ### Indicator engine — `src/utils/indicators.py` -/

/-- Recursion of `pandas.Series.ewm(adjust=False).mean()` after the first
observation: `y₀ = prev` and `yₖ = a·xₖ + (1-a)·yₖ₋₁`. -/
def ewmGo (a : ℚ) (prev : ℚ) : List ℚ → List ℚ
  | [] => [prev]
  | x :: xs => prev :: ewmGo a (a * x + (1 - a) * prev) xs

/-- The `ewm(adjust=False).mean()` of a series: the first output equals the
first input, later outputs follow the exponential recursion. -/
def ewmMean (a : ℚ) : List ℚ → List ℚ
  | [] => []
  | x :: xs => ewmGo a x xs

/-- Embeds `ema(series, span)`: `series.ewm(span=span, adjust=False).mean()`
with decay `a = 2/(span+1)`; the empty series maps to the empty series. -/
def ema (span : ℕ) (xs : List ℚ) : List ℚ :=
  ewmMean (2 / ((span : ℚ) + 1)) xs

/-- Embeds `sma(series, window)`:
`series.rolling(window=window, min_periods=1).mean()` — the value at index
`i` is the arithmetic mean of the trailing `window` values, fewer at the
start. -/
def sma (window : ℕ) (xs : List ℚ) : List ℚ :=
  (List.range xs.length).map (fun i =>
    let vals := (xs.take (i + 1)).drop (i + 1 - window)
    vals.sum / (vals.length : ℚ))

/-- Embeds `delta = series.diff()` restricted to its defined entries: entry
`k` is `xs[k+1] - xs[k]` (the value of `delta` at original index `k+1`;
`delta` at index 0 is NaN and is dropped here). -/
def rsiDeltas (xs : List ℚ) : List ℚ :=
  List.zipWith (fun prev cur => cur - prev) xs xs.tail

/-- Embeds `up = delta.clip(lower=0.0)` on the defined entries. -/
def rsiGains (xs : List ℚ) : List ℚ :=
  (rsiDeltas xs).map (fun d => max d 0)

/-- Embeds `down = -1 * delta.clip(upper=0.0)` on the defined entries. -/
def rsiLosses (xs : List ℚ) : List ℚ :=
  (rsiDeltas xs).map (fun d => max (-d) 0)

/-- Embeds `roll_up = up.ewm(alpha=1.0/period, adjust=False,
min_periods=period).mean()` before the `min_periods` mask is applied:
entry `k` is the Wilder-smoothed gain at original index `k+1` (the leading
NaN of `up` is skipped by pandas, so the recursion starts at the first
defined gain). -/
def smoothedGains (period : ℕ) (xs : List ℚ) : List ℚ :=
  ewmMean (1 / (period : ℚ)) (rsiGains xs)

/-- Embeds the corresponding `roll_down` series. -/
def smoothedLosses (period : ℕ) (xs : List ℚ) : List ℚ :=
  ewmMean (1 / (period : ℚ)) (rsiLosses xs)

/-- Embeds `rsi = (100 - 100/(1 + roll_up/roll_down)).fillna(0.0)` at one
index, given the smoothed gain `g` and smoothed loss `l` there.  In float
arithmetic `g/0 = inf` for `g > 0` (so the rsi is `100`) while `0/0 = NaN`
(so `fillna` turns the rsi into `0`). -/
def rsiVal (g l : ℚ) : ℚ :=
  if l = 0 then (if g = 0 then 0 else 100) else 100 - 100 / (1 + g / l)

/-- Embeds `rsi(series, period)`.  Index `i < period` is NaN in pandas
(index 0 because `diff` is NaN there, later warm-up indices because of
`min_periods=period`) and is zero-filled by `fillna(0.0)`; index
`i ≥ period` reads the smoothed gain/loss at offset `i-1` of the smoothed
series (which start at original index 1). -/
def rsi (period : ℕ) (xs : List ℚ) : List ℚ :=
  (List.range xs.length).map (fun i =>
    if i < period then 0
    else
      match (smoothedGains period xs)[i - 1]?, (smoothedLosses period xs)[i - 1]? with
      | some g, some l => rsiVal g l
      | _, _ => 0)

/-- A pandas DataFrame, modelled as an ordered association list of named
columns of rationals. -/
structure DataFrame where
  cols : List (String × List ℚ)
deriving DecidableEq, Repr

/-- The column names of a DataFrame, in order. -/
def DataFrame.names (df : DataFrame) : List String :=
  df.cols.map Prod.fst

/-- The values of a named column, if present. -/
def DataFrame.col? (df : DataFrame) (name : String) : Option (List ℚ) :=
  (df.cols.find? (fun p => p.1 = name)).map Prod.snd

/-- Embeds pandas column assignment `df[name] = v`: an existing column is
overwritten in place, a new name is appended at the end. -/
def DataFrame.setCol (df : DataFrame) (name : String) (v : List ℚ) : DataFrame :=
  if df.names.contains name then
    ⟨df.cols.map (fun p => if p.1 = name then (name, v) else p)⟩
  else
    ⟨df.cols ++ [(name, v)]⟩

/-- Embeds `compute_indicators(df, close_col, ema_fast, ema_slow,
rsi_period)`: raise (here: `Except.error`) when the close column is
missing, otherwise assign the three indicator columns on a copy of the
input and return the copy. -/
def compute_indicators (df : DataFrame) (close_col : String)
    (ema_fast ema_slow rsi_period : ℕ) : Except String DataFrame :=
  if df.names.contains close_col then
    let close := (df.col? close_col).getD []
    let out := df
    let out := out.setCol "ema_fast" (ema ema_fast close)
    let out := out.setCol "ema_slow" (ema ema_slow close)
    let out := out.setCol "rsi" (rsi rsi_period close)
    .ok out
  else
    .error "Close column not found in DataFrame"

/-! ### Prefix stability of the smoothing recursions -/

theorem ewmGo_take (a : ℚ) :
    ∀ (xs : List ℚ) (p : ℚ) (k : ℕ),
      (ewmGo a p xs).take (k + 1) = ewmGo a p (xs.take k)
  | [], p, k => by simp [ewmGo]
  | x :: xs, p, 0 => by simp [ewmGo]
  | x :: xs, p, k + 1 => by
      simp only [ewmGo, List.take_cons, List.take_succ_cons]
      exact congrArg (p :: ·) (ewmGo_take a xs _ k)

theorem ewmMean_take (a : ℚ) :
    ∀ (xs : List ℚ) (k : ℕ),
      (ewmMean a xs).take (k + 1) = ewmMean a (xs.take (k + 1))
  | [], k => by simp [ewmMean]
  | x :: xs, k => by
      simp only [ewmMean, List.take_succ_cons]
      exact ewmGo_take a xs x k

theorem ewmMean_getElem?_take (a : ℚ) (xs : List ℚ) (i : ℕ) :
    (ewmMean a (xs.take (i + 1)))[i]? = (ewmMean a xs)[i]? := by
  rw [← ewmMean_take]
  simp [List.getElem?_take]

theorem zipWith_take_succ (f : ℚ → ℚ → ℚ) :
    ∀ (xs ys : List ℚ) (k : ℕ),
      List.zipWith f (xs.take (k + 1)) (ys.take k) = (List.zipWith f xs ys).take k
  | [], ys, k => by simp
  | x :: xs, [], k => by simp
  | x :: xs, y :: ys, 0 => by simp
  | x :: xs, y :: ys, k + 1 => by
      simp only [List.take_succ_cons, List.zipWith_cons_cons]
      exact congrArg (f x y :: ·) (zipWith_take_succ f xs ys k)

theorem rsiDeltas_take (xs : List ℚ) (k : ℕ) :
    rsiDeltas (xs.take (k + 1)) = (rsiDeltas xs).take k := by
  unfold rsiDeltas
  have htail : (xs.take (k + 1)).tail = xs.tail.take k := by
    cases xs <;> simp
  rw [htail]
  exact zipWith_take_succ _ xs xs.tail k

theorem rsiGains_take (xs : List ℚ) (k : ℕ) :
    rsiGains (xs.take (k + 1)) = (rsiGains xs).take k := by
  unfold rsiGains
  rw [rsiDeltas_take, List.map_take]

theorem rsiLosses_take (xs : List ℚ) (k : ℕ) :
    rsiLosses (xs.take (k + 1)) = (rsiLosses xs).take k := by
  unfold rsiLosses
  rw [rsiDeltas_take, List.map_take]

theorem ema_causal (span : ℕ) (xs : List ℚ) (i : ℕ) :
    (ema span (xs.take (i + 1)))[i]? = (ema span xs)[i]? :=
  ewmMean_getElem?_take _ xs i

theorem sma_causal (window : ℕ) (xs : List ℚ) (i : ℕ) :
    (sma window (xs.take (i + 1)))[i]? = (sma window xs)[i]? := by
  by_cases h : i < xs.length
  · have hy : (xs.take (i + 1)).length = i + 1 := by
      simp only [List.length_take]
      omega
    unfold sma
    rw [List.getElem?_map, List.getElem?_map,
        List.getElem?_range (by omega : i < (xs.take (i + 1)).length),
        List.getElem?_range h]
    simp [List.take_take]
  · have h1 : (xs.take (i + 1)).length ≤ i := by
      simp only [List.length_take]
      omega
    have h2 : xs.length ≤ i := by omega
    unfold sma
    rw [List.getElem?_eq_none (by simpa using h1),
        List.getElem?_eq_none (by simpa using h2)]

theorem smoothedGains_take (period : ℕ) (xs : List ℚ) (i : ℕ) (hi : 1 ≤ i) :
    smoothedGains period (xs.take (i + 1)) = (smoothedGains period xs).take i := by
  unfold smoothedGains
  rw [rsiGains_take]
  obtain ⟨j, rfl⟩ : ∃ j, i = j + 1 := ⟨i - 1, by omega⟩
  exact (ewmMean_take _ _ j).symm

theorem smoothedLosses_take (period : ℕ) (xs : List ℚ) (i : ℕ) (hi : 1 ≤ i) :
    smoothedLosses period (xs.take (i + 1)) = (smoothedLosses period xs).take i := by
  unfold smoothedLosses
  rw [rsiLosses_take]
  obtain ⟨j, rfl⟩ : ∃ j, i = j + 1 := ⟨i - 1, by omega⟩
  exact (ewmMean_take _ _ j).symm

theorem rsi_causal (period : ℕ) (hp : 1 ≤ period) (xs : List ℚ) (i : ℕ) :
    (rsi period (xs.take (i + 1)))[i]? = (rsi period xs)[i]? := by
  by_cases h : i < xs.length
  · have hy : (xs.take (i + 1)).length = i + 1 := by
      simp only [List.length_take]
      omega
    unfold rsi
    rw [List.getElem?_map, List.getElem?_map,
        List.getElem?_range (by omega : i < (xs.take (i + 1)).length),
        List.getElem?_range h]
    simp only [Option.map_some', Option.some.injEq]
    show (if i < period then (0 : ℚ) else _) = (if i < period then (0 : ℚ) else _)
    by_cases hip : i < period
    · rw [if_pos hip, if_pos hip]
    · have hi : 1 ≤ i := le_trans hp (not_lt.1 hip)
      rw [if_neg hip, if_neg hip]
      rw [smoothedGains_take period xs i hi, smoothedLosses_take period xs i hi,
          List.getElem?_take, List.getElem?_take]
      simp only [if_pos (by omega : i - 1 < i)]
  · have h1 : (xs.take (i + 1)).length ≤ i := by
      simp only [List.length_take]
      omega
    have h2 : xs.length ≤ i := by omega
    unfold rsi
    rw [List.getElem?_eq_none (by simpa using h1),
        List.getElem?_eq_none (by simpa using h2)]

/-- C2: for every price series, every index `i`, and all span/window/period
parameters (with `period ≥ 1`, since the code divides by `period`), the
exponential average, the simple average and the oscillator value at index
`i` computed from the full series equal the values at index `i` computed
from only the prefix `[0..i]` of the series — no look-ahead. -/
theorem indicator_causality (xs : List ℚ) (i : ℕ) (span window period : ℕ)
    (hp : 1 ≤ period) :
    (ema span (xs.take (i + 1)))[i]? = (ema span xs)[i]? ∧
    (sma window (xs.take (i + 1)))[i]? = (sma window xs)[i]? ∧
    (rsi period (xs.take (i + 1)))[i]? = (rsi period xs)[i]? :=
  ⟨ema_causal span xs i, sma_causal window xs i, rsi_causal period hp xs i⟩

/-- Witness for `indicator_causality` at a concrete series, index and
parameters. -/
theorem indicator_causality_witness :
    (1 ≤ 2) ∧
    ((ema 3 ([1, 2, 4, 8].take 2))[1]? = (ema 3 [1, 2, 4, 8])[1]? ∧
     (sma 2 ([1, 2, 4, 8].take 2))[1]? = (sma 2 [1, 2, 4, 8])[1]? ∧
     (rsi 2 ([1, 2, 4, 8].take 2))[1]? = (rsi 2 [1, 2, 4, 8])[1]?) :=
  ⟨by norm_num, indicator_causality [1, 2, 4, 8] 1 3 2 2 (by norm_num)⟩

/-! ### Range of the oscillator -/

theorem ewmGo_nonneg (a : ℚ) (h0 : 0 ≤ a) (h1 : a ≤ 1) :
    ∀ (xs : List ℚ) (p : ℚ), 0 ≤ p → (∀ x ∈ xs, 0 ≤ x) →
      ∀ y ∈ ewmGo a p xs, 0 ≤ y
  | [], p, hp, _, y, hy => by
      simp only [ewmGo, List.mem_singleton] at hy
      exact hy ▸ hp
  | x :: xs, p, hp, hxs, y, hy => by
      simp only [ewmGo, List.mem_cons] at hy
      rcases hy with rfl | hy
      · exact hp
      · have hx : 0 ≤ x := hxs x (List.mem_cons_self x xs)
        have hnext : 0 ≤ a * x + (1 - a) * p := by
          have := mul_nonneg h0 hx
          have := mul_nonneg (by linarith : (0 : ℚ) ≤ 1 - a) hp
          linarith
        exact ewmGo_nonneg a h0 h1 xs _ hnext
          (fun z hz => hxs z (List.mem_cons_of_mem x hz)) y hy

theorem ewmMean_nonneg (a : ℚ) (h0 : 0 ≤ a) (h1 : a ≤ 1) (xs : List ℚ)
    (hxs : ∀ x ∈ xs, 0 ≤ x) : ∀ y ∈ ewmMean a xs, 0 ≤ y := by
  cases xs with
  | nil => simp [ewmMean]
  | cons x rest =>
      exact ewmGo_nonneg a h0 h1 rest x (hxs x (List.mem_cons_self x rest))
        (fun z hz => hxs z (List.mem_cons_of_mem x hz))

theorem rsiVal_bounds (g l : ℚ) (hg : 0 ≤ g) (hl : 0 ≤ l) :
    0 ≤ rsiVal g l ∧ rsiVal g l ≤ 100 := by
  unfold rsiVal
  by_cases h : l = 0
  · by_cases hg0 : g = 0 <;> simp [h, hg0]
  · have hlpos : 0 < l := lt_of_le_of_ne hl (Ne.symm h)
    have hrs : 0 ≤ g / l := div_nonneg hg hlpos.le
    have hden : (1 : ℚ) ≤ 1 + g / l := by linarith
    have hle : 100 / (1 + g / l) ≤ 100 := div_le_self (by norm_num) hden
    have hpos : 0 < 100 / (1 + g / l) := div_pos (by norm_num) (by linarith)
    rw [if_neg h]
    constructor <;> linarith

theorem smoothedGains_mem_nonneg (period : ℕ) (hp : 1 ≤ period) (xs : List ℚ) :
    ∀ g ∈ smoothedGains period xs, 0 ≤ g := by
  intro g hg
  have hper : (1 : ℚ) ≤ (period : ℚ) := by exact_mod_cast hp
  refine ewmMean_nonneg _ (by positivity) ?_ _ ?_ g hg
  · rw [div_le_one (by linarith)]
    exact hper
  · intro x hx
    simp only [rsiGains, List.mem_map] at hx
    obtain ⟨d, _, rfl⟩ := hx
    exact le_max_right d 0

theorem smoothedLosses_mem_nonneg (period : ℕ) (hp : 1 ≤ period) (xs : List ℚ) :
    ∀ l ∈ smoothedLosses period xs, 0 ≤ l := by
  intro l hl
  have hper : (1 : ℚ) ≤ (period : ℚ) := by exact_mod_cast hp
  refine ewmMean_nonneg _ (by positivity) ?_ _ ?_ l hl
  · rw [div_le_one (by linarith)]
    exact hper
  · intro x hx
    simp only [rsiLosses, List.mem_map] at hx
    obtain ⟨d, _, rfl⟩ := hx
    exact le_max_right (-d) 0

/-- Every value the oscillator emits lies in `[0, 100]`. -/
theorem rsi_mem_bounds (period : ℕ) (hp : 1 ≤ period) (xs : List ℚ) :
    ∀ y ∈ rsi period xs, 0 ≤ y ∧ y ≤ 100 := by
  intro y hy
  simp only [rsi, List.mem_map, List.mem_range] at hy
  obtain ⟨i, _, hval⟩ := hy
  by_cases hip : i < period
  · rw [if_pos hip] at hval
    exact hval ▸ by norm_num
  · rw [if_neg hip] at hval
    rcases hg : (smoothedGains period xs)[i - 1]? with _ | g
    · rw [hg] at hval
      exact hval ▸ by norm_num
    · rcases hl : (smoothedLosses period xs)[i - 1]? with _ | l
      · rw [hg, hl] at hval
        exact hval ▸ by norm_num
      · rw [hg, hl] at hval
        have hgm : g ∈ smoothedGains period xs := by
          obtain ⟨hlt, he⟩ := List.getElem?_eq_some.mp hg
          exact he ▸ List.getElem_mem hlt
        have hlm : l ∈ smoothedLosses period xs := by
          obtain ⟨hlt, he⟩ := List.getElem?_eq_some.mp hl
          exact he ▸ List.getElem_mem hlt
        exact hval ▸ rsiVal_bounds g l
          (smoothedGains_mem_nonneg period hp xs g hgm)
          (smoothedLosses_mem_nonneg period hp xs l hlm)

/-- C3 (amended): for every input series and every period `≥ 1`, every
oscillator output lies in `[0, 100]`; at a post-warm-up index whose
smoothed loss is 0, the output is 100 when the smoothed gain is nonzero,
but 0 when the smoothed gain is also 0 (the code forms `rs = 0/0 = NaN`
there and `fillna(0.0)` turns the output into 0, not 100). -/
theorem rsi_range_and_zero_loss (period : ℕ) (hp : 1 ≤ period) (xs : List ℚ) :
    (∀ y ∈ rsi period xs, 0 ≤ y ∧ y ≤ 100) ∧
    (∀ i g, period ≤ i → i < xs.length →
      (smoothedGains period xs)[i - 1]? = some g →
      (smoothedLosses period xs)[i - 1]? = some 0 →
      (rsi period xs)[i]? = some (if g = 0 then 0 else 100)) := by
  refine ⟨rsi_mem_bounds period hp xs, ?_⟩
  intro i g hper hlen hg hl
  unfold rsi
  rw [List.getElem?_map, List.getElem?_range hlen, Option.map_some',
      if_neg (not_lt.2 hper), hg, hl]
  simp [rsiVal]

/-- Witness for `rsi_range_and_zero_loss`: on the rising series `[1, 2]`
with period 1, index 1 has smoothed gain 1 and smoothed loss 0, and the
oscillator emits 100 there, a value inside `[0, 100]`. -/
theorem rsi_range_and_zero_loss_witness :
    (0 ≤ (100 : ℚ) ∧ (100 : ℚ) ≤ 100) ∧
    (rsi 1 [1, 2])[1]? = some (if (1 : ℚ) = 0 then 0 else 100) := by
  refine ⟨(rsi_range_and_zero_loss 1 le_rfl [1, 2]).1 100 ?_,
    (rsi_range_and_zero_loss 1 le_rfl [1, 2]).2 1 1 le_rfl (by norm_num) ?_ ?_⟩
  · norm_num [rsi, smoothedGains, smoothedLosses, rsiGains, rsiLosses,
      rsiDeltas, ewmMean, ewmGo, rsiVal, List.range_succ]
  · norm_num [smoothedGains, rsiGains, rsiDeltas, ewmMean, ewmGo]
  · norm_num [smoothedLosses, rsiLosses, rsiDeltas, ewmMean, ewmGo]

/-- C3 counterexample: on the flat series `[1, 1]` with period 1, the
smoothed loss at index 1 is 0, yet the oscillator output there is 0 — not
100 as the claim requires (`rs = 0/0` is NaN and `fillna(0.0)` zero-fills
it). -/
theorem rsi_zero_loss_counterexample :
    (smoothedLosses 1 [1, 1])[0]? = some 0 ∧
    (rsi 1 [1, 1])[1]? = some 0 ∧ (rsi 1 [1, 1])[1]? ≠ some 100 := by
  refine ⟨?_, ?_, ?_⟩ <;>
    norm_num [smoothedLosses, rsiLosses, rsi, smoothedGains, rsiGains,
      rsiDeltas, ewmMean, ewmGo, rsiVal, List.range_succ]

/-! ### Signal detector — `src/workers/signal_engine.py` -/

/-- Trade direction written by `detect_signal` into its result. -/
inductive Side
  | BUY
  | SELL
deriving DecidableEq, Repr

/-- A pandas cell as `detect_signal` may read it from `df["rsi"].iloc[-1]`:
a finite number, a float NaN, or a value that `float()` cannot parse
(making the code's `try`/`except` return `None`). -/
inductive Cell
  | num (q : ℚ)
  | nan
  | unparsable
deriving DecidableEq, Repr

/-- A Python float: a finite value (idealised as `ℚ`) or NaN. -/
inductive FloatVal
  | num (q : ℚ)
  | nan
deriving DecidableEq, Repr

/-- Embeds `float(last_rsi)` inside `try`/`except`: `none` models the
raised exception for an unparsable cell; NaN parses to NaN. -/
def Cell.pyFloat? : Cell → Option FloatVal
  | .num q => some (.num q)
  | .nan => some (.nan)
  | .unparsable => none

/-- Python comparison `x <= c` on floats; False when `x` is NaN. -/
def FloatVal.pyLe (x : FloatVal) (c : ℚ) : Bool :=
  match x with
  | .num q => decide (q ≤ c)
  | .nan => false

/-- Python comparison `x >= c` on floats; False when `x` is NaN. -/
def FloatVal.pyGe (x : FloatVal) (c : ℚ) : Bool :=
  match x with
  | .num q => decide (c ≤ q)
  | .nan => false

/-- Numeric value of a float.  NaN is mapped to 0; the detector only reads
this on paths where the value is known numeric. -/
def FloatVal.toRat : FloatVal → ℚ
  | .num q => q
  | .nan => 0

/-- Python `round` to the nearest integer, ties to even. -/
def pyRoundInt (q : ℚ) : ℤ :=
  let f := ⌊q⌋
  let r := q - (f : ℚ)
  if r < 1 / 2 then f
  else if 1 / 2 < r then f + 1
  else if 2 ∣ f then f else f + 1

/-- Python `round(x, nd)` on the exact rational model of a float. -/
def pyRound (nd : ℕ) (q : ℚ) : ℚ :=
  (pyRoundInt (q * 10 ^ nd) : ℚ) / 10 ^ nd

/-- The parts of the DataFrame that `detect_signal` reads: its length, its
column names, the last value of the `rsi` column, the last values of the
`close` and `price` columns (as floats), and the last `timestamp` when
that column exists. -/
structure SignalFrame where
  len : ℕ
  cols : List String
  rsiLast : Cell
  closeLast : ℚ
  priceLast : ℚ
  tsLast : Option ℤ
deriving DecidableEq, Repr

/-- The signal dict returned by `detect_signal`. -/
structure Signal where
  symbol : String
  side : Side
  entry_price : ℚ
  entry_ts : Option ℤ
  stop_price : Option ℚ
  take_price : Option ℚ
  sl_pct : Option ℚ
  rr : Option ℚ
  rsi : ℚ
deriving DecidableEq, Repr

/-- Embeds `detect_signal(df, symbol, debounce_minutes, fixed_rr, sl_pct,
rsi_low, rsi_high)`.  The `debounce_minutes` argument is accepted by the
code and never used, so it is omitted here. -/
def detect_signal (df : SignalFrame) (symbol : String)
    (fixed_rr : Option ℚ) (sl_pct : Option ℚ)
    (rsi_low : ℚ) (rsi_high : ℚ) : Option Signal :=
  if df.len < 1 then none
  else if ¬ df.cols.contains "rsi" ∨
      (¬ df.cols.contains "close" ∧ ¬ df.cols.contains "price") then none
  else
    let entry_price : ℚ :=
      if df.cols.contains "close" then df.closeLast else df.priceLast
    let entry_ts := df.tsLast
    match df.rsiLast.pyFloat? with
    | none => none
    | some v =>
      let side? : Option Side :=
        if v.pyLe rsi_low then some .BUY
        else if v.pyGe rsi_high then some .SELL
        else none
      match side? with
      | none => none
      | some side =>
        let sl_pct' : Option ℚ :=
          if sl_pct = none ∧ fixed_rr ≠ none then some (1 / 100) else sl_pct
        let rr_out := fixed_rr
        let sl_pct_out := sl_pct'
        match sl_pct_out with
        | some sl =>
          let stop_price :=
            if side = .BUY then entry_price * (1 - sl) else entry_price * (1 + sl)
          let take_price :=
            match rr_out with
            | some rr =>
                if side = .BUY then entry_price + rr * (entry_price - stop_price)
                else entry_price - rr * (stop_price - entry_price)
            | none =>
                if side = .BUY then entry_price * (1 + sl * 3)
                else entry_price * (1 - sl * 3)
          some { symbol := symbol, side := side,
                 entry_price := pyRound 8 entry_price, entry_ts := entry_ts,
                 stop_price := some (pyRound 8 stop_price),
                 take_price := some (pyRound 8 take_price),
                 sl_pct := some sl, rr := rr_out, rsi := pyRound 3 v.toRat }
        | none =>
          some { symbol := symbol, side := side,
                 entry_price := pyRound 8 entry_price, entry_ts := entry_ts,
                 stop_price := none, take_price := none,
                 sl_pct := none, rr := rr_out, rsi := pyRound 3 v.toRat }

/-- C4 (amended): if the final bar's rsi cell is float NaN or a value that
`float()` cannot parse, `detect_signal` returns no signal; the unparsable
case is caught by the code's `try`/`except` and never escapes as an
error. -/
theorem detect_signal_no_numeric_rsi (df : SignalFrame) (symbol : String)
    (fixed_rr sl_pct : Option ℚ) (rsi_low rsi_high : ℚ)
    (h : df.rsiLast = .nan ∨ df.rsiLast = .unparsable) :
    detect_signal df symbol fixed_rr sl_pct rsi_low rsi_high = none := by
  unfold detect_signal
  rcases h with h | h <;> rw [h] <;>
    simp [Cell.pyFloat?, FloatVal.pyLe, FloatVal.pyGe]

/-- Witness for `detect_signal_no_numeric_rsi` on a concrete frame whose
final rsi cell is NaN. -/
theorem detect_signal_no_numeric_rsi_witness :
    (Cell.nan = Cell.nan ∨ Cell.nan = Cell.unparsable) ∧
    detect_signal ⟨2, ["close", "rsi"], .nan, 100, 0, none⟩ "BTCUSDT"
      none (some (1 / 100)) 20 80 = none :=
  ⟨Or.inl rfl,
    detect_signal_no_numeric_rsi ⟨2, ["close", "rsi"], .nan, 100, 0, none⟩
      "BTCUSDT" none (some (1 / 100)) 20 80 (Or.inl rfl)⟩

/-- C4 counterexample: during the warm-up of the first `period` bars the
rsi column built by `rsi` is zero-filled, so the final bar of a too-short
series carries the parsable value 0; `detect_signal` then emits a BUY
signal (0 ≤ 20) instead of "no signal". -/
theorem detect_signal_warmup_counterexample :
    (rsi 14 [100, 100])[1]? = some 0 ∧
    detect_signal ⟨2, ["close", "rsi"], .num 0, 100, 0, none⟩ "BTCUSDT"
      none (some (1 / 100)) 20 80 ≠ none := by
  constructor
  · norm_num [rsi, smoothedGains, smoothedLosses, rsiGains, rsiLosses,
      rsiDeltas, ewmMean, ewmGo, rsiVal, List.range_succ]
  · norm_num [detect_signal, Cell.pyFloat?, FloatVal.pyLe, FloatVal.pyGe]
    exact Option.some_ne_none _

/-- C5 (amended): for every signal produced with a stop fraction present
(and non-negative entry price and stop fraction, as the data model
requires), the stop price is `entry·(1 − sl)` for BUY and `entry·(1 + sl)`
for SELL and the take price is `entry ± rr·|entry − stop|` when a reward
ratio is given and `entry·(1 ± 3·sl)` otherwise — each rounded to 8
decimal places by the code's `round(…, 8)` before being stored in the
signal. -/
theorem detect_signal_stop_take (df : SignalFrame) (symbol : String)
    (fixed_rr : Option ℚ) (sl : ℚ) (rsi_low rsi_high : ℚ) (sig : Signal)
    (e : ℚ)
    (hedef : e = if df.cols.contains "close" then df.closeLast else df.priceLast)
    (he : 0 ≤ e) (hsl : 0 ≤ sl)
    (h : detect_signal df symbol fixed_rr (some sl) rsi_low rsi_high = some sig) :
    (sig.side = .BUY →
        sig.stop_price = some (pyRound 8 (e * (1 - sl))) ∧
        (∀ rr, fixed_rr = some rr →
          sig.take_price = some (pyRound 8 (e + rr * |e - e * (1 - sl)|))) ∧
        (fixed_rr = none →
          sig.take_price = some (pyRound 8 (e * (1 + 3 * sl))))) ∧
    (sig.side = .SELL →
        sig.stop_price = some (pyRound 8 (e * (1 + sl))) ∧
        (∀ rr, fixed_rr = some rr →
          sig.take_price = some (pyRound 8 (e - rr * |e * (1 + sl) - e|))) ∧
        (fixed_rr = none →
          sig.take_price = some (pyRound 8 (e * (1 - 3 * sl))))) := by
  have habsBuy : |e - e * (1 - sl)| = e - e * (1 - sl) := by
    have h1 : e - e * (1 - sl) = e * sl := by ring
    rw [h1, abs_of_nonneg (mul_nonneg he hsl)]
  have habsSell : |e * (1 + sl) - e| = e * (1 + sl) - e := by
    have h1 : e * (1 + sl) - e = e * sl := by ring
    rw [h1, abs_of_nonneg (mul_nonneg he hsl)]
  unfold detect_signal at h
  rw [← hedef] at h
  by_cases h1 : df.len < 1
  · rw [if_pos h1] at h
    exact absurd h (by simp)
  rw [if_neg h1] at h
  by_cases h2 : ¬ df.cols.contains "rsi" ∨
      (¬ df.cols.contains "close" ∧ ¬ df.cols.contains "price")
  · rw [if_pos h2] at h
    exact absurd h (by simp)
  rw [if_neg h2] at h
  rcases hv : df.rsiLast.pyFloat? with _ | v <;> rw [hv] at h
  · exact absurd h (by simp)
  dsimp only at h
  by_cases hlo : v.pyLe rsi_low = true
  · rw [if_pos hlo] at h
    simp only [reduceCtorEq, false_and, if_false, reduceIte,
      Option.some.injEq] at h
    subst h
    refine ⟨fun _ => ⟨rfl, fun rr hrr => ?_, fun hrr => ?_⟩,
      fun hside => Side.noConfusion hside⟩ <;> subst hrr <;>
      simp [habsBuy, mul_comm]
  · rw [if_neg hlo] at h
    by_cases hhi : v.pyGe rsi_high = true
    · rw [if_pos hhi] at h
      simp only [reduceCtorEq, false_and, if_false, reduceIte,
        Option.some.injEq] at h
      subst h
      refine ⟨fun hside => Side.noConfusion hside,
        fun _ => ⟨rfl, fun rr hrr => ?_, fun hrr => ?_⟩⟩ <;> subst hrr <;>
        simp [habsSell, mul_comm]
    · rw [if_neg hhi] at h
      exact absurd h (by simp)

/-- Witness for `detect_signal_stop_take`: a BUY signal at entry 100 with
stop fraction 1% and no reward ratio carries stop 99 and take 103 — the
spec's own scenario (`close·0.99`, `close·1.03`). -/
theorem detect_signal_stop_take_witness :
    (Signal.mk "BTCUSDT" Side.BUY 100 none (some 99) (some 103)
        (some (1 / 100)) none 10).stop_price =
      some (pyRound 8 ((100 : ℚ) * (1 - 1 / 100))) ∧
    (Signal.mk "BTCUSDT" Side.BUY 100 none (some 99) (some 103)
        (some (1 / 100)) none 10).take_price =
      some (pyRound 8 ((100 : ℚ) * (1 + 3 * (1 / 100)))) := by
  have h := detect_signal_stop_take ⟨1, ["close", "rsi"], .num 10, 100, 0, none⟩
    "BTCUSDT" none (1 / 100) 20 80
    (Signal.mk "BTCUSDT" Side.BUY 100 none (some 99) (some 103)
      (some (1 / 100)) none 10)
    100 (by norm_num) (by norm_num) (by norm_num)
    (by norm_num [detect_signal, Cell.pyFloat?, FloatVal.pyLe, FloatVal.pyGe,
      FloatVal.toRat, pyRound, pyRoundInt])
  exact ⟨(h.1 rfl).1, (h.1 rfl).2.2 rfl⟩

/-- C5 counterexample: at entry price `10⁻⁸` with stop fraction `1/4`, the
code's `round(stop_price, 8)` turns the exact stop `0.75·10⁻⁸` into
`10⁻⁸`, so the reported stop price is not `entry·(1 − stop_fraction)`. -/
theorem detect_signal_round_counterexample :
    (detect_signal ⟨1, ["close", "rsi"], .num 10, 1 / 100000000, 0, none⟩
        "BTCUSDT" none (some (1 / 4)) 20 80).map Signal.stop_price =
      some (some (1 / 100000000)) ∧
    some ((1 : ℚ) / 100000000) ≠
      some ((1 / 100000000) * (1 - 1 / 4) : ℚ) := by
  constructor
  · norm_num [detect_signal, Cell.pyFloat?, FloatVal.pyLe, FloatVal.pyGe,
      FloatVal.toRat, pyRound, pyRoundInt]
  · norm_num

/-! ### Trade simulation — `scripts/backtest_rr.py` -/

/-- One OHLC bar as the backtest reads it. -/
structure Bar where
  high : ℚ
  low : ℚ
  close : ℚ
deriving DecidableEq, Repr

/-- The exit-reason strings written by `run_backtest`
(`"SL"`, `"TP"`, `"Reverse"`, `"EOD"`). -/
inductive RRReason
  | SL
  | TP
  | Reverse
  | EOD
deriving DecidableEq, Repr

/-- The fields of a detected signal that `run_backtest` keeps. -/
structure Sig where
  side : Side
  entry_price : ℚ
  stop_price : ℚ
  take_price : ℚ
deriving DecidableEq, Repr

/-- Embeds the intrabar stop/target check of `run_backtest` (lines 67–85):
for BUY, `low ≤ stop` is checked before `high ≥ take`; for SELL,
`high ≥ stop` before `low ≤ take`.  A bar crossing both levels therefore
exits SL. -/
def checkBarRR (side : Side) (stop_price take_price : ℚ) (bar : Bar) :
    Option (ℚ × RRReason) :=
  match side with
  | .BUY =>
      if bar.low ≤ stop_price then some (stop_price, .SL)
      else if take_price ≤ bar.high then some (take_price, .TP)
      else none
  | .SELL =>
      if stop_price ≤ bar.high then some (stop_price, .SL)
      else if bar.low ≤ take_price then some (take_price, .TP)
      else none

/-- Embeds the return computation
`(exit/entry - 1)` for BUY and `(entry/exit - 1)` for SELL. -/
def mkRet (side : Side) (entry_price exit_price : ℚ) : ℚ :=
  if side = .BUY then exit_price / entry_price - 1
  else entry_price / exit_price - 1

/-- A closed trade appended to `trades` by `run_backtest`. -/
structure TradeRR where
  entry_index : ℕ
  exit_index : ℕ
  side : Side
  entry_price : ℚ
  exit_price : ℚ
  exit_reason : RRReason
  ret : ℚ
deriving DecidableEq, Repr

/-- The in-flight position of `run_backtest`: the accepted signal, the bar
index `i` of entry, and the inner-loop cursor `j`. -/
structure OpenPos where
  sig : Sig
  entry_index : ℕ
  j : ℕ
deriving DecidableEq, Repr

/-- The loop state of `run_backtest`: outer cursor `i`, the (at most one)
open position, and the trades appended so far. -/
structure BTState where
  i : ℕ
  pos : Option OpenPos
  trades : List TradeRR
deriving DecidableEq, Repr

/-- One step of `run_backtest`'s walk (lines 41–137).  `detect i` abstracts
the per-prefix query `detect_signal(df.iloc[:i+1], …)`.  When flat, a
signal at bar `i` opens a position whose exit scan starts at `j = i+1`;
when open, bar `j` is checked for stop/target, then for a reverse signal
(exit at the close), and the inner cursor advances; when `j` passes the
end, the position closes at the final bar's close with reason EOD and the
outer cursor resumes at `j`. -/
def stepRR (bars : List Bar) (detect : ℕ → Option Sig) (s : BTState) :
    BTState :=
  match s.pos with
  | none =>
      if s.i < bars.length then
        match detect s.i with
        | some sig => { s with pos := some ⟨sig, s.i, s.i + 1⟩ }
        | none => { s with i := s.i + 1 }
      else s
  | some p =>
      if hj : p.j < bars.length then
        let bar := bars.get ⟨p.j, hj⟩
        match checkBarRR p.sig.side p.sig.stop_price p.sig.take_price bar with
        | some (price, reason) =>
            { i := p.j, pos := none,
              trades := s.trades ++ [⟨p.entry_index, p.j, p.sig.side,
                p.sig.entry_price, price, reason,
                mkRet p.sig.side p.sig.entry_price price⟩] }
        | none =>
            match detect p.j with
            | some rev =>
                if rev.side ≠ p.sig.side then
                  { i := p.j, pos := none,
                    trades := s.trades ++ [⟨p.entry_index, p.j, p.sig.side,
                      p.sig.entry_price, bar.close, .Reverse,
                      mkRet p.sig.side p.sig.entry_price bar.close⟩] }
                else { s with pos := some ⟨p.sig, p.entry_index, p.j + 1⟩ }
            | none => { s with pos := some ⟨p.sig, p.entry_index, p.j + 1⟩ }
      else
        { i := p.j, pos := none,
          trades := s.trades ++ [⟨p.entry_index, bars.length - 1, p.sig.side,
            p.sig.entry_price, ((bars.getLast?).map Bar.close).getD 0, .EOD,
            mkRet p.sig.side p.sig.entry_price
              (((bars.getLast?).map Bar.close).getD 0)⟩] }

/-- The summary dict of `run_backtest` (lines 145–158): statistics when
there is at least one trade. -/
structure SummaryRR where
  n_trades : ℕ
  win_rate : ℚ
  avg_win : ℚ
  avg_loss : ℚ
  profit_factor : Option ℚ
  total_return : ℚ
deriving DecidableEq, Repr

/-- The two shapes of `run_backtest`'s summary: the bare `{"n_trades": 0}`
dict, or the full statistics dict. -/
inductive Summary
  | empty
  | stats (s : SummaryRR)
deriving DecidableEq, Repr

/-- Embeds the summary computation of `run_backtest` over the `return`
column of the trades: wins are `return > 0`, losses `return ≤ 0`;
`profit_factor` is `None` (here `none`) when there are no losses. -/
def mkSummaryRR (rets : List ℚ) : Summary :=
  if 0 < rets.length then
    let wins := rets.filter (fun r => 0 < r)
    let losses := rets.filter (fun r => r ≤ 0)
    .stats
      { n_trades := rets.length,
        win_rate := (wins.length : ℚ) / (rets.length : ℚ),
        avg_win := if 0 < wins.length then wins.sum / (wins.length : ℚ) else 0,
        avg_loss :=
          if 0 < losses.length then losses.sum / (losses.length : ℚ) else 0,
        profit_factor :=
          if 0 < losses.length then some (wins.sum / (-losses.sum)) else none,
        total_return := ((rets.map (fun r => r + 1)).prod) - 1 }
  else .empty

/-! ### `scripts/run_backtest_from_signals.py` -/

/-- One row of the OHLCV table, keyed by its timestamp. -/
structure BarRow where
  ts : ℤ
  high : ℚ
  low : ℚ
  close : ℚ
deriving DecidableEq, Repr

/-- The exit-reason strings of `find_exit`
(`"sl"`, `"tp"`, `"timeout"`). -/
inductive FSReason
  | sl
  | tp
  | timeout
deriving DecidableEq, Repr

/-- The per-row stop/target check of `find_exit` (lines 38–47): the same
stop-before-target priority as `run_backtest`. -/
def checkBarFS (side : Side) (stop_price take_price : ℚ) (r : BarRow) :
    Option (ℚ × FSReason) :=
  match side with
  | .BUY =>
      if r.low ≤ stop_price then some (stop_price, .sl)
      else if take_price ≤ r.high then some (take_price, .tp)
      else none
  | .SELL =>
      if stop_price ≤ r.high then some (stop_price, .sl)
      else if r.low ≤ take_price then some (take_price, .tp)
      else none

/-- The row loop of `find_exit`: the first row whose stop/target check
fires gives the exit; if none fires, the exit is a timeout at the last
row's close and timestamp. -/
def findExitGo (side : Side) (stop_price take_price : ℚ) :
    List BarRow → Option (ℤ × ℚ × FSReason)
  | [] => none
  | [r] =>
      match checkBarFS side stop_price take_price r with
      | some (price, reason) => some (r.ts, price, reason)
      | none => some (r.ts, r.close, .timeout)
  | r :: rest =>
      match checkBarFS side stop_price take_price r with
      | some (price, reason) => some (r.ts, price, reason)
      | none => findExitGo side stop_price take_price rest

/-- Embeds `find_exit(ohlcv_idxed, entry_ts, side, stop_price,
take_price)`.  The window `ohlcv_idxed.loc[entry_ts:]` starts at the entry
timestamp inclusive; `none` models the `(None, None, "no-data")` return
for an empty window. -/
def find_exit (ohlcv : List BarRow) (entry_ts : ℤ) (side : Side)
    (stop_price take_price : ℚ) : Option (ℤ × ℚ × FSReason) :=
  findExitGo side stop_price take_price
    (ohlcv.filter (fun r => entry_ts ≤ r.ts))

/-- One row of the signal CSV that `main` reads. -/
structure SignalRow where
  entry_ts : ℤ
  entry_price : ℚ
  side : Side
  stop_price : ℚ
  take_price : ℚ
deriving DecidableEq, Repr

/-- A trade dict appended by `main`. -/
structure TradeFS where
  entry_ts : ℤ
  exit_ts : ℤ
  side : Side
  entry_price : ℚ
  exit_price : ℚ
  ret : ℚ
  reason : FSReason
deriving DecidableEq, Repr

/-- The signal loop of `main` (lines 70–106): starting from the given
balance, each signal row is resolved through `find_exit`; a `no-data`
result is skipped (`continue`); otherwise the return is computed, the
trade appended, the balance multiplied by `1 + ret`, and one equity point
`(exit_ts, balance)` recorded.  Returns the trades, the final balance and
the equity curve. -/
def processSignals (ohlcv : List BarRow) :
    List SignalRow → ℚ → List TradeFS × ℚ × List (ℤ × ℚ)
  | [], bal => ([], bal, [])
  | r :: rest, bal =>
      match find_exit ohlcv r.entry_ts r.side r.stop_price r.take_price with
      | none => processSignals ohlcv rest bal
      | some (exit_ts, exit_price, reason) =>
          let ret := mkRet r.side r.entry_price exit_price
          let bal' := bal * (1 + ret)
          let out := processSignals ohlcv rest bal'
          (⟨r.entry_ts, exit_ts, r.side, r.entry_price, exit_price, ret,
              reason⟩ :: out.1,
            out.2.1, (exit_ts, bal') :: out.2.2)

/-- The summary dict of `main` (lines 112–122) for a non-empty trade
list. -/
structure SummaryFS where
  n_trades : ℕ
  net_return : ℚ
  win_rate : ℚ
  profit_factor : ℚ
  final_equity : ℚ
deriving DecidableEq, Repr

/-- Embeds the summary computation of `main`: `none` models the bare
`{"n_trades": 0}` dict for an empty trade list; otherwise `net_return` is
the SUM of returns (not compounded), and the profit factor divides the
winning sum by the absolute losing sum plus `1e-12`, so it is a number
even when there are no losing trades. -/
def mkSummaryFS (rets : List ℚ) (balance : ℚ) : Option SummaryFS :=
  if 0 < rets.length then
    some
      { n_trades := rets.length,
        net_return := rets.sum,
        win_rate := ((rets.filter (fun r => 0 < r)).length : ℚ) /
          (rets.length : ℚ),
        profit_factor := (rets.filter (fun r => 0 < r)).sum /
          (|(rets.filter (fun r => r ≤ 0)).sum| + 1 / 10 ^ 12),
        final_equity := balance }
  else none

/-! ### Exit priority (claim C1) -/

/-- C1: within a single scanned bar, in both engines (`run_backtest` and
`find_exit`): for BUY, `low ≤ stop` exits SL at the stop price even when
`high ≥ take` on the same bar, and only `low > stop` with `high ≥ take`
exits TP at the take price; symmetrically for SELL, `high ≥ stop` (SL)
takes precedence over `low ≤ take` (TP). -/
theorem exit_priority (stop_price take_price high low close : ℚ) (ts : ℤ) :
    (low ≤ stop_price →
      checkBarRR .BUY stop_price take_price ⟨high, low, close⟩ =
        some (stop_price, .SL) ∧
      checkBarFS .BUY stop_price take_price ⟨ts, high, low, close⟩ =
        some (stop_price, .sl)) ∧
    (¬ low ≤ stop_price → take_price ≤ high →
      checkBarRR .BUY stop_price take_price ⟨high, low, close⟩ =
        some (take_price, .TP) ∧
      checkBarFS .BUY stop_price take_price ⟨ts, high, low, close⟩ =
        some (take_price, .tp)) ∧
    (stop_price ≤ high →
      checkBarRR .SELL stop_price take_price ⟨high, low, close⟩ =
        some (stop_price, .SL) ∧
      checkBarFS .SELL stop_price take_price ⟨ts, high, low, close⟩ =
        some (stop_price, .sl)) ∧
    (¬ stop_price ≤ high → low ≤ take_price →
      checkBarRR .SELL stop_price take_price ⟨high, low, close⟩ =
        some (take_price, .TP) ∧
      checkBarFS .SELL stop_price take_price ⟨ts, high, low, close⟩ =
        some (take_price, .tp)) := by
  refine ⟨fun h => ?_, fun h1 h2 => ?_, fun h => ?_, fun h1 h2 => ?_⟩ <;>
    simp [checkBarRR, checkBarFS, *]

/-- Witness for `exit_priority` at the spec's own scenario: stop 95,
take 110, a bar with low 94 and high 112 crosses both levels and exits at
the stop. -/
theorem exit_priority_witness :
    (checkBarRR .BUY 95 110 ⟨112, 94, 100⟩ = some (95, .SL) ∧
     checkBarFS .BUY 95 110 ⟨0, 112, 94, 100⟩ = some (95, .sl)) ∧
    (checkBarRR .SELL 95 110 ⟨112, 94, 100⟩ = some (95, .SL) ∧
     checkBarFS .SELL 95 110 ⟨0, 112, 94, 100⟩ = some (95, .sl)) :=
  ⟨(exit_priority 95 110 112 94 100 0).1 (by norm_num),
   (exit_priority 95 110 112 94 100 0).2.2.1 (by norm_num)⟩

/-! ### Where the exit scan starts (claim C6) -/

/-- C6 (amended): in `run_backtest`, accepting a signal at bar `i` opens a
position whose exit scan starts at the bar immediately after entry
(`j = i + 1`), so the entry bar never resolves the exit there; in
`find_exit`, by contrast, the scanned window starts at the entry timestamp
inclusive, so the first window row — the entry bar itself — resolves the
exit whenever it crosses a level (BUY/stop shown). -/
theorem scan_start_after_entry :
    (∀ (bars : List Bar) (detect : ℕ → Option Sig) (s : BTState) (sig : Sig),
      s.pos = none → s.i < bars.length → detect s.i = some sig →
      (stepRR bars detect s).pos = some ⟨sig, s.i, s.i + 1⟩ ∧
      (stepRR bars detect s).trades = s.trades) ∧
    (∀ (ohlcv : List BarRow) (entry_ts : ℤ) (stop_price take_price : ℚ)
        (b : BarRow) (rest : List BarRow),
      ohlcv.filter (fun r => entry_ts ≤ r.ts) = b :: rest →
      b.low ≤ stop_price →
      find_exit ohlcv entry_ts .BUY stop_price take_price =
        some (b.ts, stop_price, .sl)) := by
  constructor
  · rintro bars detect ⟨i, pos, trades⟩ sig hpos hlt hdet
    subst hpos
    simp [stepRR, hlt, hdet]
  · intro ohlcv entry_ts stop_price take_price b rest hw hlow
    unfold find_exit
    rw [hw]
    cases rest with
    | nil => simp [findExitGo, checkBarFS, hlow]
    | cons c cs => simp [findExitGo, checkBarFS, hlow]

/-- Witness for `scan_start_after_entry`: a concrete flat state accepting
a signal at bar 0 opens a scan at bar 1, and a concrete one-row window
whose first row is the entry bar exits at the entry timestamp. -/
theorem scan_start_after_entry_witness :
    ((stepRR [⟨100, 94, 96⟩] (fun _ => some ⟨.BUY, 96, 90, 110⟩)
        ⟨0, none, []⟩).pos = some ⟨⟨.BUY, 96, 90, 110⟩, 0, 0 + 1⟩ ∧
     (stepRR [⟨100, 94, 96⟩] (fun _ => some ⟨.BUY, 96, 90, 110⟩)
        ⟨0, none, []⟩).trades = []) ∧
    find_exit [⟨0, 100, 94, 96⟩] 0 .BUY 95 110 = some (0, 95, .sl) :=
  ⟨scan_start_after_entry.1 [⟨100, 94, 96⟩] (fun _ => some ⟨.BUY, 96, 90, 110⟩)
      ⟨0, none, []⟩ ⟨.BUY, 96, 90, 110⟩ rfl (by norm_num) rfl,
   scan_start_after_entry.2 [⟨0, 100, 94, 96⟩] 0 95 110 ⟨0, 100, 94, 96⟩ []
      (by norm_num) (by norm_num)⟩

/-- C6 counterexample: `find_exit` on a single-bar table whose only bar
carries the entry timestamp resolves the exit on that very entry bar
(stop 95 hit by low 94 at timestamp 0 = entry timestamp), contradicting
"the entry bar itself never resolves the position's exit". -/
theorem find_exit_entry_bar_counterexample :
    find_exit [⟨0, 100, 94, 96⟩] 0 .BUY 95 110 = some (0, 95, .sl) := by
  norm_num [find_exit, findExitGo, checkBarFS, List.filter]

/-! ### Position lifecycle (claim C7) -/

/-- C7: the loop state of `run_backtest` holds at most one open position
(`pos : Option OpenPos`), and one step of the walk (i) appends no trade
while flat, (ii) opens a position only from the flat state — and then from
the signal at the current bar, scanning from `i+1` —, (iii) never replaces
an open position by a different one (it only advances its scan cursor
without trading), and (iv) whenever the open position is resolved, appends
exactly one trade. -/
theorem stepRR_single_position (bars : List Bar) (detect : ℕ → Option Sig)
    (s : BTState) :
    (s.pos = none → (stepRR bars detect s).trades = s.trades) ∧
    (∀ p', s.pos = none → (stepRR bars detect s).pos = some p' →
      detect s.i = some p'.sig ∧ p'.entry_index = s.i ∧ p'.j = s.i + 1 ∧
      s.i < bars.length) ∧
    (∀ p p', s.pos = some p → (stepRR bars detect s).pos = some p' →
      p'.sig = p.sig ∧ p'.entry_index = p.entry_index ∧ p'.j = p.j + 1 ∧
      (stepRR bars detect s).trades = s.trades) ∧
    (∀ p, s.pos = some p → (stepRR bars detect s).pos = none →
      (stepRR bars detect s).trades.length = s.trades.length + 1) := by
  obtain ⟨i, pos, trades⟩ := s
  rcases pos with _ | p
  · refine ⟨fun _ => ?_, fun p' _ hp' => ?_,
      fun p p' hp _ => by simp at hp, fun p hp _ => by simp at hp⟩
    · simp only [stepRR]
      by_cases hlt : i < bars.length
      · rw [if_pos hlt]
        rcases detect i with _ | sig <;> simp
      · rw [if_neg hlt]
    · simp only [stepRR] at hp'
      by_cases hlt : i < bars.length
      · rw [if_pos hlt] at hp'
        rcases hdet : detect i with _ | sig <;> rw [hdet] at hp'
        · simp at hp'
        · have hp2 : (⟨sig, i, i + 1⟩ : OpenPos) = p' := by simpa using hp'
          subst hp2
          exact ⟨rfl, rfl, rfl, hlt⟩
      · rw [if_neg hlt] at hp'
        simp at hp'
  · refine ⟨fun hnone => by simp at hnone, fun p' hnone => by simp at hnone,
      ?_, ?_⟩
    · rintro q p' hq hp'
      rw [Option.some_inj] at hq
      subst hq
      simp only [stepRR] at hp'
      by_cases hj : p.j < bars.length
      · rw [dif_pos hj] at hp'
        rcases hc : checkBarRR p.sig.side p.sig.stop_price p.sig.take_price
            (bars.get ⟨p.j, hj⟩) with _ | pr <;> rw [hc] at hp' <;>
          dsimp only at hp'
        · rcases hdet : detect p.j with _ | rev <;> rw [hdet] at hp' <;>
            dsimp only at hp'
          · have hp2 : (⟨p.sig, p.entry_index, p.j + 1⟩ : OpenPos) = p' := by
              simpa using hp'
            subst hp2
            refine ⟨rfl, rfl, rfl, ?_⟩
            have hc2 : checkBarRR p.sig.side p.sig.stop_price
                p.sig.take_price bars[p.j] = none := by
              simpa using hc
            simp [stepRR, dif_pos hj, hc2, hdet]
          · by_cases hside : rev.side ≠ p.sig.side
            · rw [if_pos hside] at hp'
              simp at hp'
            · rw [if_neg hside] at hp'
              have hp2 : (⟨p.sig, p.entry_index, p.j + 1⟩ : OpenPos) = p' := by
                simpa using hp'
              subst hp2
              refine ⟨rfl, rfl, rfl, ?_⟩
              have hc2 : checkBarRR p.sig.side p.sig.stop_price
                  p.sig.take_price bars[p.j] = none := by
                simpa using hc
              simp [stepRR, dif_pos hj, hc2, hdet, if_neg hside]
        · simp at hp'
      · rw [dif_neg hj] at hp'
        simp at hp'
    · rintro q hq hnone
      rw [Option.some_inj] at hq
      subst hq
      simp only [stepRR]
      by_cases hj : p.j < bars.length
      · rw [dif_pos hj]
        rcases hc : checkBarRR p.sig.side p.sig.stop_price p.sig.take_price
            (bars.get ⟨p.j, hj⟩) with _ | pr <;> dsimp only
        · rcases hdet : detect p.j with _ | rev
          · simp only [stepRR, dif_pos hj, hc, hdet] at hnone
            simp at hnone
          · by_cases hside : rev.side ≠ p.sig.side
            · simp [hdet, hside]
            · simp only [stepRR, dif_pos hj, hc, hdet, if_neg hside] at hnone
              simp at hnone
        · rcases pr with ⟨price, reason⟩
          simp
      · rw [dif_neg hj]
        simp

/-- Witness for `stepRR_single_position`: on a one-bar table, a flat state
accepting a signal at bar 0 opens exactly the expected position without
trading, and a state holding a position whose cursor has passed the end
closes it with exactly one appended trade. -/
theorem stepRR_single_position_witness :
    ((stepRR [⟨100, 94, 96⟩] (fun _ => some ⟨.BUY, 96, 90, 110⟩)
        ⟨0, none, []⟩).trades = [] ∧
     ((fun _ => some (⟨.BUY, 96, 90, 110⟩ : Sig)) 0 =
        some (⟨⟨.BUY, 96, 90, 110⟩, 0, 1⟩ : OpenPos).sig ∧
      (⟨⟨.BUY, 96, 90, 110⟩, 0, 1⟩ : OpenPos).entry_index = 0 ∧
      (⟨⟨.BUY, 96, 90, 110⟩, 0, 1⟩ : OpenPos).j = 0 + 1 ∧
      0 < [(⟨100, 94, 96⟩ : Bar)].length)) ∧
    (stepRR [⟨100, 94, 96⟩] (fun _ => some ⟨.BUY, 96, 90, 110⟩)
        ⟨0, some ⟨⟨.BUY, 96, 90, 110⟩, 0, 1⟩, []⟩).trades.length =
      ([] : List TradeRR).length + 1 :=
  ⟨⟨(stepRR_single_position [⟨100, 94, 96⟩]
        (fun _ => some ⟨.BUY, 96, 90, 110⟩) ⟨0, none, []⟩).1 rfl,
    (stepRR_single_position [⟨100, 94, 96⟩]
        (fun _ => some ⟨.BUY, 96, 90, 110⟩) ⟨0, none, []⟩).2.1
      ⟨⟨.BUY, 96, 90, 110⟩, 0, 1⟩ rfl rfl⟩,
   (stepRR_single_position [⟨100, 94, 96⟩]
        (fun _ => some ⟨.BUY, 96, 90, 110⟩)
        ⟨0, some ⟨⟨.BUY, 96, 90, 110⟩, 0, 1⟩, []⟩).2.2.2
      ⟨⟨.BUY, 96, 90, 110⟩, 0, 1⟩ rfl rfl⟩

/-! ### Summary statistics (claim C8) -/

theorem sum_nonpos_of_mem (l : List ℚ) (h : ∀ x ∈ l, x ≤ 0) : l.sum ≤ 0 := by
  induction l with
  | nil => simp
  | cons x xs ih =>
      simp only [List.sum_cons]
      have hx := h x (List.mem_cons_self x xs)
      have hxs := ih (fun y hy => h y (List.mem_cons_of_mem x hy))
      linarith

theorem filter_nonpos_sum_abs (rets : List ℚ) :
    |(rets.filter (fun r => r ≤ 0)).sum| = -(rets.filter (fun r => r ≤ 0)).sum := by
  apply abs_of_nonpos
  apply sum_nonpos_of_mem
  intro x hx
  have := List.of_mem_filter hx
  exact of_decide_eq_true this

/-- C8 (amended): for a non-empty trade list, `run_backtest`'s summary is
the full statistics dict with win rate `(#returns > 0)/n`, profit factor
`Σwins/|Σlosses|` that is `None` exactly when there are no losing trades,
and total compounded return `∏(1+r) − 1`; for zero trades it is the bare
`{"n_trades": 0}` dict.  `main`'s summary reports the win rate and trade
count the same way, but its profit factor is `Σwins/(|Σlosses| + 1e-12)` —
a number even when there are no losing trades — and its `net_return` is
the arithmetic sum of returns, not the compounded product. -/
theorem summary_stats (rets : List ℚ) (balance : ℚ) :
    (rets ≠ [] → mkSummaryRR rets ≠ .empty) ∧
    (∀ s, mkSummaryRR rets = .stats s →
      s.n_trades = rets.length ∧
      s.win_rate = ((rets.filter (fun r => 0 < r)).length : ℚ) /
        (rets.length : ℚ) ∧
      (rets.filter (fun r => r ≤ 0) = [] → s.profit_factor = none) ∧
      (rets.filter (fun r => r ≤ 0) ≠ [] →
        s.profit_factor = some ((rets.filter (fun r => 0 < r)).sum /
          |(rets.filter (fun r => r ≤ 0)).sum|)) ∧
      s.total_return = (rets.map (fun r => 1 + r)).prod - 1) ∧
    mkSummaryRR [] = .empty ∧
    (rets ≠ [] → (mkSummaryFS rets balance).isSome = true) ∧
    (∀ t, mkSummaryFS rets balance = some t →
      t.n_trades = rets.length ∧
      t.win_rate = ((rets.filter (fun r => 0 < r)).length : ℚ) /
        (rets.length : ℚ) ∧
      t.profit_factor = (rets.filter (fun r => 0 < r)).sum /
        (|(rets.filter (fun r => r ≤ 0)).sum| + 1 / 10 ^ 12) ∧
      t.net_return = rets.sum) ∧
    mkSummaryFS [] balance = none := by
  have hmap : rets.map (fun r => r + 1) = rets.map (fun r => 1 + r) :=
    List.map_congr_left (fun r _ => by ring)
  refine ⟨?_, ?_, by simp [mkSummaryRR], ?_, ?_, by simp [mkSummaryFS]⟩
  · intro hne
    simp [mkSummaryRR, List.length_pos.2 hne]
  · intro s hs
    unfold mkSummaryRR at hs
    by_cases hlen : 0 < rets.length
    · rw [if_pos hlen] at hs
      simp only [Summary.stats.injEq] at hs
      subst hs
      refine ⟨rfl, rfl, fun hememp => ?_, fun hne => ?_, ?_⟩
      · simp [hememp]
      · have hpos : 0 < (rets.filter (fun r => r ≤ 0)).length :=
          List.length_pos.2 hne
        simp only [if_pos hpos, Option.some.injEq]
        rw [filter_nonpos_sum_abs]
      · simp only
        rw [hmap]
    · rw [if_neg hlen] at hs
      exact absurd hs (by simp)
  · intro hne
    simp [mkSummaryFS, List.length_pos.2 hne]
  · intro t ht
    unfold mkSummaryFS at ht
    by_cases hlen : 0 < rets.length
    · rw [if_pos hlen] at ht
      simp only [Option.some.injEq] at ht
      subst ht
      exact ⟨rfl, rfl, rfl, rfl⟩
    · rw [if_neg hlen] at ht
      exact absurd ht (by simp)

/-- Witness for `summary_stats` on the concrete returns `[1, -1/2]`: the
summary of `run_backtest` is a full statistics dict whose profit factor is
`Σwins/|Σlosses| = 2`. -/
theorem summary_stats_witness :
    mkSummaryRR [1, -1/2] ≠ .empty ∧
    (SummaryRR.mk 2 (1/2) 1 (-1/2) (some 2) 0).profit_factor =
      some ((([1, -1/2] : List ℚ).filter (fun r => 0 < r)).sum /
        |(([1, -1/2] : List ℚ).filter (fun r => r ≤ 0)).sum|) :=
  ⟨(summary_stats [1, -1/2] 10000).1 (by simp),
   ((summary_stats [1, -1/2] 10000).2.1 (SummaryRR.mk 2 (1/2) 1 (-1/2)
        (some 2) 0)
      (by norm_num [mkSummaryRR, List.filter])).2.2.2.1
    (by norm_num [List.filter])⟩

/-- C8 counterexample: `main`'s summary for the single winning trade `[1]`
reports the numeric profit factor `10¹²` (not null, although there are no
losing trades); for `[1, -1/2]` its profit factor differs from the exact
ratio `Σwins/|Σlosses| = 2`, and its `net_return = 1/2` is not the total
compounded return `∏(1+r) − 1 = 0`. -/
theorem summaryFS_counterexample :
    (mkSummaryFS [1] 10000).map SummaryFS.profit_factor =
      some ((10 : ℚ) ^ 12) ∧
    (mkSummaryFS [1, -1/2] 10000).map SummaryFS.profit_factor ≠ some 2 ∧
    (mkSummaryFS [1, -1/2] 10000).map SummaryFS.net_return = some (1/2) ∧
    ((1 : ℚ) + 1) * (1 + (-1/2)) - 1 ≠ 1/2 := by
  refine ⟨?_, ?_, ?_, by norm_num⟩ <;>
    norm_num [mkSummaryFS, List.filter]
  rw [abs_of_nonneg (by norm_num : (0 : ℚ) ≤ 1 / 2)]
  norm_num

/-! ### Equity compounding (claim C9) -/

theorem processSignals_spec (ohlcv : List BarRow) :
    ∀ (rows : List SignalRow) (bal : ℚ),
      (processSignals ohlcv rows bal).2.1 =
        bal * ((processSignals ohlcv rows bal).1.map (fun t => 1 + t.ret)).prod ∧
      ((processSignals ohlcv rows bal).2.2).length =
        (processSignals ohlcv rows bal).1.length ∧
      ∀ k : ℕ, (((processSignals ohlcv rows bal).2.2)[k]?).map Prod.fst =
        (((processSignals ohlcv rows bal).1)[k]?).map TradeFS.exit_ts
  | [], bal => by simp [processSignals]
  | r :: rest, bal => by
      rcases hfe : find_exit ohlcv r.entry_ts r.side r.stop_price r.take_price
        with _ | ⟨ets, eprice, reason⟩
      · simpa [processSignals, hfe] using processSignals_spec ohlcv rest bal
      · have ih := processSignals_spec ohlcv rest
          (bal * (1 + mkRet r.side r.entry_price eprice))
        simp only [processSignals, hfe]
        refine ⟨?_, ?_, ?_⟩
        · rw [List.map_cons, List.prod_cons, ih.1]
          ring
        · simpa using ih.2.1
        · intro k
          cases k with
          | zero => simp
          | succ k => simpa using ih.2.2 k

/-- C9: starting from the initial balance 10000, the final equity of
`main`'s signal loop equals `10000 · ∏(1 + ret)` over the closed trades in
processing order, and exactly one equity point is recorded per closed
trade, carrying that trade's exit timestamp. -/
theorem equity_compounding (ohlcv : List BarRow) (rows : List SignalRow) :
    (processSignals ohlcv rows 10000).2.1 =
      10000 * ((processSignals ohlcv rows 10000).1.map (fun t => 1 + t.ret)).prod ∧
    ((processSignals ohlcv rows 10000).2.2).length =
      (processSignals ohlcv rows 10000).1.length ∧
    ∀ k : ℕ, (((processSignals ohlcv rows 10000).2.2)[k]?).map Prod.fst =
      (((processSignals ohlcv rows 10000).1)[k]?).map TradeFS.exit_ts :=
  processSignals_spec ohlcv rows 10000

/-- Witness for `equity_compounding` on a concrete one-signal run: the
signal exits at the stop, the final equity is `10000·(1 + ret)` and the
single equity point carries the trade's exit timestamp. -/
theorem equity_compounding_witness :
    (processSignals [⟨0, 100, 94, 96⟩] [⟨0, 96, .BUY, 95, 110⟩] 10000).2.1 =
      10000 * ((processSignals [⟨0, 100, 94, 96⟩] [⟨0, 96, .BUY, 95, 110⟩]
        10000).1.map (fun t => 1 + t.ret)).prod ∧
    ((processSignals [⟨0, 100, 94, 96⟩] [⟨0, 96, .BUY, 95, 110⟩]
        10000).2.2).length =
      (processSignals [⟨0, 100, 94, 96⟩] [⟨0, 96, .BUY, 95, 110⟩]
        10000).1.length ∧
    ∀ k : ℕ, (((processSignals [⟨0, 100, 94, 96⟩] [⟨0, 96, .BUY, 95, 110⟩]
        10000).2.2)[k]?).map Prod.fst =
      (((processSignals [⟨0, 100, 94, 96⟩] [⟨0, 96, .BUY, 95, 110⟩]
        10000).1)[k]?).map TradeFS.exit_ts :=
  equity_compounding [⟨0, 100, 94, 96⟩] [⟨0, 96, .BUY, 95, 110⟩]

/-! ### Frame behaviour of `compute_indicators` (claim C10) -/

theorem setCol_append (df : DataFrame) (n : String) (v : List ℚ)
    (h : df.names.contains n = false) :
    df.setCol n v = ⟨df.cols ++ [(n, v)]⟩ := by
  have h2 : ¬ n ∈ df.names := by simpa using h
  unfold DataFrame.setCol
  simp [h, h2]

theorem names_snoc (df : DataFrame) (n : String) (v : List ℚ) :
    (⟨df.cols ++ [(n, v)]⟩ : DataFrame).names = df.names ++ [n] := by
  simp [DataFrame.names]

theorem contains_snoc_false (df : DataFrame) (n m : String) (v : List ℚ)
    (h : df.names.contains m = false) (hne : (m == n) = false) :
    (⟨df.cols ++ [(n, v)]⟩ : DataFrame).names.contains m = false := by
  rw [names_snoc]
  simp_all

/-- C10 (amended): when the input contains the close column and none of
`ema_fast`, `ema_slow`, `rsi` is already a column, `compute_indicators`
returns the input's columns unchanged with exactly those three indicator
columns appended at the end (the model is pure, so the input value itself
is never mutated — mirroring the code's `df.copy()`).  When one of the
three names is already a column, pandas assignment overwrites it in place
instead of adding a column. -/
theorem compute_indicators_frame (df : DataFrame) (close_col : String)
    (ema_fast ema_slow rsi_period : ℕ)
    (hclose : df.names.contains close_col = true)
    (hf : df.names.contains "ema_fast" = false)
    (hs : df.names.contains "ema_slow" = false)
    (hr : df.names.contains "rsi" = false) :
    compute_indicators df close_col ema_fast ema_slow rsi_period =
      .ok ⟨df.cols ++
        [("ema_fast", ema ema_fast ((df.col? close_col).getD [])),
         ("ema_slow", ema ema_slow ((df.col? close_col).getD [])),
         ("rsi", rsi rsi_period ((df.col? close_col).getD []))]⟩ := by
  have hs1 := contains_snoc_false df "ema_fast" "ema_slow"
    (ema ema_fast ((df.col? close_col).getD [])) hs (by decide)
  have hr1 := contains_snoc_false df "ema_fast" "rsi"
    (ema ema_fast ((df.col? close_col).getD [])) hr (by decide)
  have hr2 := contains_snoc_false
    ⟨df.cols ++ [("ema_fast", ema ema_fast ((df.col? close_col).getD []))]⟩
    "ema_slow" "rsi" (ema ema_slow ((df.col? close_col).getD [])) hr1
    (by decide)
  unfold compute_indicators
  simp only [hclose, if_true]
  rw [setCol_append df "ema_fast" _ hf,
      setCol_append _ "ema_slow" _ hs1,
      setCol_append _ "rsi" _ hr2]
  simp

/-- Witness for `compute_indicators_frame` on a two-row close-only input:
the result is the input columns with the three indicator columns
appended. -/
theorem compute_indicators_frame_witness :
    compute_indicators ⟨[("close", [1, 2])]⟩ "close" 9 21 14 =
      .ok ⟨[("close", [1, 2])] ++
        [("ema_fast", ema 9 (((⟨[("close", [1, 2])]⟩ : DataFrame).col?
            "close").getD [])),
         ("ema_slow", ema 21 (((⟨[("close", [1, 2])]⟩ : DataFrame).col?
            "close").getD [])),
         ("rsi", rsi 14 (((⟨[("close", [1, 2])]⟩ : DataFrame).col?
            "close").getD []))]⟩ :=
  compute_indicators_frame ⟨[("close", [1, 2])]⟩ "close" 9 21 14
    (by decide) (by decide) (by decide) (by decide)

/-- C10 counterexample: on an input that already has an `rsi` column, the
returned frame has that column overwritten in place — the output's column
names are not the input's plus the three indicator names, and the original
`rsi` values `[7, 7]` are replaced by the recomputed `[0, 0]`. -/
theorem compute_indicators_overwrite_counterexample :
    (compute_indicators ⟨[("close", [1, 2]), ("rsi", [7, 7])]⟩ "close"
        9 21 14).toOption.map DataFrame.names =
      some ["close", "rsi", "ema_fast", "ema_slow"] ∧
    (["close", "rsi", "ema_fast", "ema_slow"] : List String) ≠
      ["close", "rsi"] ++ ["ema_fast", "ema_slow", "rsi"] ∧
    (compute_indicators ⟨[("close", [1, 2]), ("rsi", [7, 7])]⟩ "close"
        9 21 14).toOption.map (fun out => out.col? "rsi") =
      some (some (rsi 14 [1, 2])) ∧
    rsi 14 [1, 2] = [0, 0] ∧ ([0, 0] : List ℚ) ≠ [7, 7] := by
  refine ⟨?_, by decide, ?_, ?_, by norm_num⟩
  · simp only [compute_indicators, DataFrame.setCol, DataFrame.names,
      DataFrame.col?, List.filter]
    simp
    exact ⟨_, rfl, rfl⟩
  · simp only [compute_indicators, DataFrame.setCol, DataFrame.names,
      DataFrame.col?, List.filter]
    simp
    exact ⟨_, rfl, "rsi", rfl⟩
  · norm_num [rsi, smoothedGains, smoothedLosses, rsiGains, rsiLosses,
      rsiDeltas, ewmMean, ewmGo, rsiVal, List.range_succ]

end SignalBot
